import Mathlib

/-!
Verification of the drTranscribe real-time session orchestration layer.

Python strings are embedded as `List Char` (`Str`), byte buffers as
`List Nat` with values below 256, and `asyncio` interleavings as an explicit
event-step relation on a per-session scheduler state.
-/

namespace DrTranscribe

/-- Embedding of a Python `str` as a list of characters. -/
abbrev Str := List Char

/-- Coerce a Lean string literal into the `Str` embedding. -/
def pyStr (s : String) : Str := s.data

/-- Python `str.strip()`: drop whitespace from both ends. -/
def pyStrip (s : Str) : Str :=
  ((s.dropWhile Char.isWhitespace).reverse.dropWhile Char.isWhitespace).reverse

/-- Python substring test `small in big` (bidirectional `in` operator on `str`). -/
def substrB (small big : Str) : Bool :=
  (List.range (big.length + 1)).any fun i =>
    decide (((big.drop i).take small.length) = small)

/-- `existing.split('\n')` with each line `.strip()`ed and blank lines removed,
as in `_merge_field` (src/models/extraction.py). -/
def segmentsOf (s : Str) : List Str :=
  ((s.splitOn '\n').map pyStrip).filter (fun l => l ≠ [])

/-- The duplicate test of `_merge_field`: a new line is a duplicate when it is a
substring of, or contains, some existing line. -/
def dupLine (existingLines : List Str) (newLine : Str) : Bool :=
  existingLines.any fun el => substrB newLine el || substrB el newLine

/-- `ExtractionResult._merge_field` (src/models/extraction.py, lines 38-76),
translated clause by clause from the source. -/
def mergeField (existing new : Str) : Str :=
  if existing = [] then new
  else if new = [] then existing
  else if existing = new then existing
  else if substrB new existing then existing
  else if substrB existing new then new
  else
    let existingLines := segmentsOf existing
    let newLines := segmentsOf new
    let uniqueNewLines := newLines.filter fun nl => !dupLine existingLines nl
    if uniqueNewLines = [] then existing
    else existing ++ '\n' :: List.intercalate ['\n'] uniqueNewLines

/-- Reference per-field merge rule, written from the specification's words
(spec §4.5): previous empty takes new and vice versa; equal strings unchanged;
one a substring of the other takes the longer one; otherwise the previous text
is kept (so every previous segment is kept) and each newline-delimited trimmed
new segment is appended exactly when it is neither a substring of, nor
contains, any existing segment. -/
def mergeFieldSpec (prev new : Str) : Str :=
  if prev = [] then new
  else if new = [] then prev
  else if prev = new then prev
  else if substrB new prev || substrB prev new then
    (if new.length ≤ prev.length then prev else new)
  else
    let appended := (segmentsOf new).filter fun nl => !dupLine (segmentsOf prev) nl
    if appended = [] then prev
    else prev ++ '\n' :: List.intercalate ['\n'] appended

/-- `ExtractionResult` (src/models/extraction.py): five cumulative string
fields, defaulting to empty. -/
structure ExtractionResult where
  chief_complaint : Str := []
  diagnosis : Str := []
  medicine : Str := []
  advice : Str := []
  next_steps : Str := []
deriving DecidableEq

/-- `ExtractionResult.merge`: field-wise `_merge_field`. -/
def ExtractionResult.merge (self other : ExtractionResult) : ExtractionResult where
  chief_complaint := mergeField self.chief_complaint other.chief_complaint
  diagnosis := mergeField self.diagnosis other.diagnosis
  medicine := mergeField self.medicine other.medicine
  advice := mergeField self.advice other.advice
  next_steps := mergeField self.next_steps other.next_steps

section SubstrLemmas

theorem substrB_iff (small big : Str) :
    substrB small big = true ↔
      ∃ i, i < big.length + 1 ∧ (big.drop i).take small.length = small := by
  unfold substrB
  rw [List.any_eq_true]
  constructor
  · rintro ⟨i, hi, hp⟩
    exact ⟨i, List.mem_range.mp hi, of_decide_eq_true hp⟩
  · rintro ⟨i, hi, hp⟩
    exact ⟨i, List.mem_range.mpr hi, decide_eq_true hp⟩

theorem substrB_refl (s : Str) : substrB s s = true := by
  rw [substrB_iff]
  exact ⟨0, by omega, by simp⟩

theorem substrB_append_right (s t : Str) : substrB s (s ++ t) = true := by
  rw [substrB_iff]
  refine ⟨0, by simp, ?_⟩
  simp

theorem substrB_length_le {small big : Str} (h : substrB small big = true) :
    small.length ≤ big.length := by
  rw [substrB_iff] at h
  obtain ⟨i, _, hp⟩ := h
  have := congrArg List.length hp
  simp [List.length_take, List.length_drop] at this
  omega

theorem substrB_eq_of_length_eq {small big : Str} (h : substrB small big = true)
    (hl : small.length = big.length) : small = big := by
  rw [substrB_iff] at h
  obtain ⟨i, _, hp⟩ := h
  have hlen := congrArg List.length hp
  simp [List.length_take, List.length_drop] at hlen
  have hi : i = 0 ∨ big.length = 0 := by omega
  rcases hi with hi | hi
  · subst hi
    simpa [hl, List.take_length] using hp.symm
  · have hbig : big = [] := List.eq_nil_of_length_eq_zero hi
    have hsmall : small = [] := List.eq_nil_of_length_eq_zero (by omega)
    simp [hbig, hsmall]

end SubstrLemmas

theorem mergeField_keeps_existing (e n : Str) (h : e ≠ []) :
    substrB e (mergeField e n) = true := by
  unfold mergeField
  by_cases h2 : n = []
  · simp [h, h2, substrB_refl]
  by_cases h3 : e = n
  · simp [h, h2, h3, substrB_refl]
  by_cases h4 : substrB n e
  · simp [h, h2, h3, h4, substrB_refl]
  by_cases h5 : substrB e n
  · simp [h, h2, h3, h4, h5]
  simp only [h, h2, h3, h4, h5, if_false, if_neg, Bool.false_eq_true]
  split
  · exact substrB_refl e
  · exact substrB_append_right e _

/-- C6: for every pair of field strings, the per-field merge of the code
(`_merge_field`) coincides with the reference rule read off the spec:
empty sides, equal strings, bidirectional substring absorption taking the
longer string, and otherwise appending exactly the new newline-delimited
trimmed segments that neither are substrings of nor contain an existing
segment. -/
theorem mergeField_matches_spec_rule (existing new : Str) :
    mergeField existing new = mergeFieldSpec existing new := by
  unfold mergeField mergeFieldSpec
  by_cases h1 : existing = []
  · simp [h1]
  by_cases h2 : new = []
  · simp [h1, h2]
  by_cases h3 : existing = new
  · simp [h1, h2, h3]
  by_cases h4 : substrB new existing
  · have hle : new.length ≤ existing.length := substrB_length_le h4
    simp [h1, h2, h3, h4, hle]
  by_cases h5 : substrB existing new
  · have hle : existing.length ≤ new.length := substrB_length_le h5
    have hne : ¬ (new.length ≤ existing.length) := by
      intro hc
      exact h3 (substrB_eq_of_length_eq h5 (by omega))
    simp [h1, h2, h3, h4, h5, hne]
  · simp [h1, h2, h3, h4, h5]

/-- C7: each non-empty field of the previous snapshot appears unchanged as a
substring of the corresponding field of `merge(previous, new)`, so information
content grows monotonically and old text is never silently dropped. -/
theorem merge_monotone_substring (p n : ExtractionResult) :
    (p.chief_complaint ≠ [] →
      substrB p.chief_complaint ((p.merge n).chief_complaint) = true) ∧
    (p.diagnosis ≠ [] → substrB p.diagnosis ((p.merge n).diagnosis) = true) ∧
    (p.medicine ≠ [] → substrB p.medicine ((p.merge n).medicine) = true) ∧
    (p.advice ≠ [] → substrB p.advice ((p.merge n).advice) = true) ∧
    (p.next_steps ≠ [] → substrB p.next_steps ((p.merge n).next_steps) = true) :=
  ⟨fun h => mergeField_keeps_existing _ _ h,
   fun h => mergeField_keeps_existing _ _ h,
   fun h => mergeField_keeps_existing _ _ h,
   fun h => mergeField_keeps_existing _ _ h,
   fun h => mergeField_keeps_existing _ _ h⟩

/-- Witness for C7 at a concrete pair of snapshots. -/
theorem merge_monotone_substring_witness :
    pyStr "headache" ≠ [] ∧
    substrB (pyStr "headache")
      ((ExtractionResult.merge
          ⟨pyStr "headache", pyStr "migraine", pyStr "ibuprofen",
           pyStr "rest", pyStr "follow up"⟩
          ⟨pyStr "nausea", [], [], [], []⟩).chief_complaint) = true :=
  ⟨by decide,
   (merge_monotone_substring
      ⟨pyStr "headache", pyStr "migraine", pyStr "ibuprofen",
       pyStr "rest", pyStr "follow up"⟩
      ⟨pyStr "nausea", [], [], [], []⟩).1 (by decide)⟩

/-! ## Session registry (src/services/session_manager.py)

`SessionManager.sessions` is a Python `dict` keyed by session id, embedded as
an association list with unique keys.  `create_session` is plain dict
assignment, `get_session` is `dict.get`, `end_session` deletes the entry only
when present. -/

/-- Python dict assignment `d[k] = v`: replace the entry in place, else append. -/
def dictSet {α : Type} : List (String × α) → String → α → List (String × α)
  | [], k, v => [(k, v)]
  | p :: t, k, v => if p.1 == k then (k, v) :: t else p :: dictSet t k v

/-- Python `del d[k]` for a present key: drop the entry with key `k`. -/
def dictDelete {α : Type} : List (String × α) → String → List (String × α)
  | [], _ => []
  | p :: t, k => if p.1 == k then t else p :: dictDelete t k

/-- `SessionManager.create_session`: `self.sessions[session.session_id] = session`
— unconditional dict assignment, with no duplicate-id check. -/
def createSession {α : Type} (m : List (String × α)) (k : String) (v : α) :
    List (String × α) :=
  dictSet m k v

/-- `SessionManager.get_session`: `self.sessions.get(session_id)`. -/
def getSession {α : Type} (m : List (String × α)) (k : String) : Option α :=
  (m.find? (fun p => p.1 == k)).map (·.2)

/-- `SessionManager.end_session`: delete the entry if the id is present,
otherwise do nothing. -/
def endSession {α : Type} (m : List (String × α)) (k : String) :
    List (String × α) :=
  if m.any (fun p => p.1 == k) then dictDelete m k else m

/-- `SessionManager.get_active_sessions_count`: `len(self.sessions)`. -/
def activeSessionsCount {α : Type} (m : List (String × α)) : Nat := m.length

theorem getSession_dictSet_self {α : Type} (m : List (String × α)) (k : String)
    (v : α) : getSession (dictSet m k v) k = some v := by
  induction m with
  | nil => simp [dictSet, getSession]
  | cons p t ih =>
    by_cases hp : p.1 == k
    · simp [dictSet, getSession, hp]
    · simpa [dictSet, getSession, hp] using ih

theorem getSession_dictSet_other {α : Type} (m : List (String × α))
    (k k' : String) (v : α) (h : k' ≠ k) :
    getSession (dictSet m k v) k' = getSession m k' := by
  induction m with
  | nil => simp [dictSet, getSession, Ne.symm h]
  | cons p t ih =>
    by_cases hp : p.1 == k
    · have hpk : p.1 = k := by simpa using hp
      simp [dictSet, getSession, hp, hpk, Ne.symm h]
    · by_cases hp' : p.1 == k'
      · simp [dictSet, getSession, hp, hp']
      · simpa [dictSet, getSession, hp, hp'] using ih

theorem getSession_eq_none_of_not_mem {α : Type} (m : List (String × α))
    (k : String) (h : k ∉ m.map Prod.fst) : getSession m k = none := by
  induction m with
  | nil => simp [getSession]
  | cons p t ih =>
    simp only [List.map_cons, List.mem_cons] at h
    push_neg at h
    have hp : p.1 ≠ k := Ne.symm h.1
    simpa [getSession, hp] using ih h.2

theorem getSession_endSession_self {α : Type} (m : List (String × α))
    (k : String) (hnd : (m.map Prod.fst).Nodup) :
    getSession (endSession m k) k = none := by
  unfold endSession
  split
  case isFalse h => exact getSession_eq_none_of_not_mem m k (by
    intro hc
    apply h
    rw [List.any_eq_true]
    obtain ⟨p, hp, hpk⟩ := List.mem_map.mp hc
    exact ⟨p, hp, by simp [hpk]⟩)
  case isTrue h =>
    clear h
    induction m with
    | nil => simp [dictDelete, getSession]
    | cons p t ih =>
      simp only [List.map_cons, List.nodup_cons] at hnd
      by_cases hp : p.1 == k
      · have hpk : p.1 = k := by simpa using hp
        rw [show dictDelete (p :: t) k = t by simp [dictDelete, hp]]
        exact getSession_eq_none_of_not_mem t k (hpk ▸ hnd.1)
      · simpa [dictDelete, getSession, hp] using ih hnd.2

theorem endSession_absent_noop {α : Type} (m : List (String × α)) (k : String)
    (h : getSession m k = none) : endSession m k = m := by
  unfold endSession
  rw [if_neg]
  intro hc
  rw [List.any_eq_true] at hc
  obtain ⟨p, hp, hpk⟩ := hc
  have := List.find?_eq_none.mp (by
    unfold getSession at h
    exact Option.map_eq_none.mp h) p hp
  exact this hpk

/-- Counterexample for C5: the registry does NOT signal an error on a
duplicate session id.  Creating a second session under the already-present id
`"s"` succeeds and silently replaces the stored session, so a lookup returns
the new session and the original is gone. -/
theorem create_session_duplicate_overwrites :
    getSession (createSession (createSession ([] : List (String × String))
        "s" "A") "s" "B") "s" = some "B" ∧
    getSession (createSession (createSession ([] : List (String × String))
        "s" "A") "s" "B") "s" ≠ some "A" := by
  constructor
  · rfl
  · decide

/-- C5 (amended): `create(session)` stores the session under its id, silently
overwriting any existing entry with that id (no duplicate-id error is
signalled); `get(id)` returns the stored session or "not found"; `remove(id)`
deletes the entry and is a no-op if the id is absent. -/
theorem session_manager_ops {α : Type} (m : List (String × α)) (k k' : String)
    (v : α) (hnd : (m.map Prod.fst).Nodup) :
    getSession (createSession m k v) k = some v ∧
    (k' ≠ k → getSession (createSession m k v) k' = getSession m k') ∧
    getSession (endSession m k) k = none ∧
    (getSession m k = none → endSession m k = m) :=
  ⟨getSession_dictSet_self m k v,
   fun h => getSession_dictSet_other m k k' v h,
   getSession_endSession_self m k hnd,
   endSession_absent_noop m k⟩

/-- Witness for C5 (amended) at a concrete registry state. -/
theorem session_manager_ops_witness :
    ((([("a", "X")] : List (String × String)).map Prod.fst).Nodup ∧
      "b" ≠ "s") ∧
    (getSession (createSession [("a", "X")] "s" "A") "s" = some "A" ∧
      getSession (createSession [("a", "X")] "s" "A") "b" =
        getSession [("a", "X")] "b" ∧
      getSession (endSession [("a", "X")] "s") "s" = none) := by
  have h := session_manager_ops ([("a", "X")] : List (String × String))
    "s" "b" "A" (by decide)
  exact ⟨⟨by decide, by decide⟩, h.1, h.2.1 (by decide), h.2.2.1⟩

/-! ## WAV utilities (src/utils/wav_utils.py)

Byte buffers are `List Nat` with entries below 256.  `struct.unpack('<H', …)`
and `struct.unpack('<I', …)` become `readU16`/`readU32`; `struct.pack`
becomes `packU16`/`packU32` (Python's `struct.pack` raises for out-of-range
values, modelled by the size guard in `combineWavChunks`). -/

/-- Little-endian unsigned 16-bit read at byte offset `off`. -/
def readU16 (b : List Nat) (off : Nat) : Nat :=
  b.getD off 0 + 256 * b.getD (off + 1) 0

/-- Little-endian unsigned 32-bit read at byte offset `off`. -/
def readU32 (b : List Nat) (off : Nat) : Nat :=
  b.getD off 0 + 256 * b.getD (off + 1) 0 + 65536 * b.getD (off + 2) 0 +
    16777216 * b.getD (off + 3) 0

/-- Little-endian unsigned 16-bit encode (`struct.pack('<H', n)`). -/
def packU16 (n : Nat) : List Nat := [n % 256, n / 256 % 256]

/-- Little-endian unsigned 32-bit encode (`struct.pack('<I', n)`). -/
def packU32 (n : Nat) : List Nat :=
  [n % 256, n / 256 % 256, n / 65536 % 256, n / 16777216 % 256]

/-- ASCII bytes of `'RIFF'`. -/
def riffTag : List Nat := [0x52, 0x49, 0x46, 0x46]

/-- ASCII bytes of `'WAVE'`. -/
def waveTag : List Nat := [0x57, 0x41, 0x56, 0x45]

/-- ASCII bytes of `'fmt '`. -/
def fmtTag : List Nat := [0x66, 0x6D, 0x74, 0x20]

/-- ASCII bytes of `'data'`. -/
def dataTag : List Nat := [0x64, 0x61, 0x74, 0x61]

/-- `validate_wav_header`: at least 44 bytes, starting with `RIFF` and with
`WAVE` at offset 8. -/
def validateWavHeader (d : List Nat) : Bool :=
  decide (44 ≤ d.length) && (d.take 4 == riffTag) && ((d.drop 8).take 4 == waveTag)

/-- The 44-byte WAV header written by `combine_wav_chunks`, field for field:
`RIFF`, file size (`data_size + 36`), `WAVE`, `fmt `, fmt-chunk size 16,
audio format, channels, sample rate, byte rate, block align, bits per sample,
`data`, data size. -/
def wavHeaderBytes (audioFormat numChannels sampleRate byteRate blockAlign
    bitsPerSample dataSize : Nat) : List Nat :=
  riffTag ++ packU32 (dataSize + 36) ++ waveTag ++ fmtTag ++ packU32 16 ++
    packU16 audioFormat ++ packU16 numChannels ++ packU32 sampleRate ++
    packU32 byteRate ++ packU16 blockAlign ++ packU16 bitsPerSample ++
    dataTag ++ packU32 dataSize

/-- `combine_wav_chunks`: error on an empty list; validate the first chunk's
header; read the format fields from the first chunk (offsets 20‥35);
concatenate each chunk's bytes past the 44-byte header (chunks of at most 44
bytes contribute nothing); rebuild a single header declaring the total PCM
size.  The size guard models `struct.pack('<I', …)` raising on overflow. -/
def combineWavChunks (chunks : List (List Nat)) : Except String (List Nat) :=
  match chunks with
  | [] => Except.error "No chunks to combine"
  | first :: _ =>
    if validateWavHeader first then
      let pcmData :=
        (chunks.map fun c => if 44 < c.length then c.drop 44 else []).flatten
      if pcmData.length + 36 < 2 ^ 32 then
        Except.ok
          (wavHeaderBytes (readU16 first 20) (readU16 first 22)
            (readU32 first 24) (readU32 first 28) (readU16 first 32)
            (readU16 first 34) pcmData.length ++ pcmData)
      else Except.error "struct.error: argument out of range"
    else Except.error "Invalid WAV header"

theorem readU32_packU32_append (n : Nat) (rest : List Nat) (h : n < 2 ^ 32) :
    readU32 (packU32 n ++ rest) 0 = n := by
  show n % 256 + 256 * (n / 256 % 256) + 65536 * (n / 65536 % 256) +
    16777216 * (n / 16777216 % 256) = n
  omega

theorem readU16_packU16_append (n : Nat) (rest : List Nat) (h : n < 2 ^ 16) :
    readU16 (packU16 n ++ rest) 0 = n := by
  show n % 256 + 256 * (n / 256 % 256) = n
  omega

theorem getD_lt_256 : ∀ (b : List Nat), (∀ x ∈ b, x < 256) → ∀ i : Nat,
    b.getD i 0 < 256
  | [], _, i => by simp [List.getD]
  | x :: t, hb, 0 => by
      rw [List.getD_cons_zero]
      exact hb x (by simp)
  | x :: t, hb, i + 1 => by
      rw [List.getD_cons_succ]
      exact getD_lt_256 t (fun y hy => hb y (by simp [hy])) i

theorem readU16_lt {b : List Nat} (hb : ∀ x ∈ b, x < 256) (off : Nat) :
    readU16 b off < 2 ^ 16 := by
  have h1 := getD_lt_256 b hb off
  have h2 := getD_lt_256 b hb (off + 1)
  have : (2 : Nat) ^ 16 = 65536 := by norm_num
  unfold readU16
  omega

theorem readU32_lt {b : List Nat} (hb : ∀ x ∈ b, x < 256) (off : Nat) :
    readU32 b off < 2 ^ 32 := by
  have h1 := getD_lt_256 b hb off
  have h2 := getD_lt_256 b hb (off + 1)
  have h3 := getD_lt_256 b hb (off + 2)
  have h4 := getD_lt_256 b hb (off + 3)
  have : (2 : Nat) ^ 32 = 4294967296 := by norm_num
  unfold readU32
  omega

theorem pcm_length : ∀ chunks : List (List Nat), (∀ c ∈ chunks, 44 ≤ c.length) →
    ((chunks.map fun c => if 44 < c.length then c.drop 44 else []).flatten).length
      = (chunks.map fun c => c.length - 44).sum := by
  intro chunks
  induction chunks with
  | nil => intro _; simp
  | cons c t ih =>
    intro h
    have hc := h c (by simp)
    have ht := ih (fun c' hc' => h c' (by simp [hc']))
    by_cases hlt : 44 < c.length
    · simp [hlt, ht]
    · have hc44 : c.length = 44 := by omega
      simp [hlt, hc44, ht]

theorem wavHeaderBytes_length (af nc sr br ba bps ds : Nat) :
    (wavHeaderBytes af nc sr br ba bps ds).length = 44 := by
  simp [wavHeaderBytes, riffTag, waveTag, fmtTag, dataTag, packU16, packU32]

/-- `wavHeaderBytes` written out byte by byte (RIFF, file size, WAVE, fmt,
fmt-chunk size, format fields, data tag, data size). -/
theorem wavHeaderBytes_cons (af nc sr br ba bps ds : Nat) :
    wavHeaderBytes af nc sr br ba bps ds =
      [0x52, 0x49, 0x46, 0x46,
       (ds + 36) % 256, (ds + 36) / 256 % 256, (ds + 36) / 65536 % 256,
       (ds + 36) / 16777216 % 256,
       0x57, 0x41, 0x56, 0x45, 0x66, 0x6D, 0x74, 0x20,
       16, 0, 0, 0,
       af % 256, af / 256 % 256, nc % 256, nc / 256 % 256,
       sr % 256, sr / 256 % 256, sr / 65536 % 256, sr / 16777216 % 256,
       br % 256, br / 256 % 256, br / 65536 % 256, br / 16777216 % 256,
       ba % 256, ba / 256 % 256, bps % 256, bps / 256 % 256,
       0x64, 0x61, 0x74, 0x61,
       ds % 256, ds / 256 % 256, ds / 65536 % 256, ds / 16777216 % 256] := by
  simp [wavHeaderBytes, riffTag, waveTag, fmtTag, dataTag, packU16, packU32]

/-- C8: combining a non-empty list of WAV chunks, each at least 44 bytes with
a valid first header, yields `44 + P` output bytes where `P` sums the
chunks' payload lengths; the header's data-size field is exactly `P`, its
RIFF size field is `P + 36`, and channels / sample rate / bit depth equal the
values read from the first chunk.  (The `P + 36 < 2^32` bound is where
`struct.pack('<I', …)` would raise, and chunk bytes are below 256 as Python
`bytes` are.) -/
theorem combine_wav_chunks_spec (first : List Nat) (rest : List (List Nat))
    (hv : validateWavHeader first = true)
    (hlen : ∀ c ∈ first :: rest, 44 ≤ c.length)
    (hbytes : ∀ x ∈ first, x < 256)
    (hP : ((first :: rest).map fun c => c.length - 44).sum + 36 < 2 ^ 32) :
    ∃ out, combineWavChunks (first :: rest) = Except.ok out ∧
      out.length = 44 + ((first :: rest).map fun c => c.length - 44).sum ∧
      readU32 out 40 = ((first :: rest).map fun c => c.length - 44).sum ∧
      readU32 out 4 = ((first :: rest).map fun c => c.length - 44).sum + 36 ∧
      readU16 out 22 = readU16 first 22 ∧
      readU32 out 24 = readU32 first 24 ∧
      readU16 out 34 = readU16 first 34 := by
  have hpcm := pcm_length (first :: rest) hlen
  set pcm :=
    ((first :: rest).map fun c => if 44 < c.length then c.drop 44 else []).flatten
    with hpcmdef
  set P := ((first :: rest).map fun c => c.length - 44).sum with hPdef
  have hsize : pcm.length + 36 < 2 ^ 32 := by rw [hpcm]; exact hP
  refine ⟨wavHeaderBytes (readU16 first 20) (readU16 first 22)
      (readU32 first 24) (readU32 first 28) (readU16 first 32)
      (readU16 first 34) pcm.length ++ pcm, ?_, ?_, ?_, ?_, ?_, ?_, ?_⟩
  · simp only [combineWavChunks, hv, if_true, ← hpcmdef]
    rw [if_pos hsize]
  · rw [List.length_append, wavHeaderBytes_length, hpcm]
  · rw [wavHeaderBytes_cons]
    show pcm.length % 256 + 256 * (pcm.length / 256 % 256) +
      65536 * (pcm.length / 65536 % 256) +
      16777216 * (pcm.length / 16777216 % 256) = P
    rw [hpcm]
    have h32 : (2 : Nat) ^ 32 = 4294967296 := by norm_num
    omega
  · rw [wavHeaderBytes_cons]
    show (pcm.length + 36) % 256 + 256 * ((pcm.length + 36) / 256 % 256) +
      65536 * ((pcm.length + 36) / 65536 % 256) +
      16777216 * ((pcm.length + 36) / 16777216 % 256) = P + 36
    rw [hpcm]
    have h32 : (2 : Nat) ^ 32 = 4294967296 := by norm_num
    omega
  · rw [wavHeaderBytes_cons]
    show readU16 first 22 % 256 + 256 * (readU16 first 22 / 256 % 256) =
      readU16 first 22
    have h16 := readU16_lt hbytes 22
    have e16 : (2 : Nat) ^ 16 = 65536 := by norm_num
    omega
  · rw [wavHeaderBytes_cons]
    show readU32 first 24 % 256 + 256 * (readU32 first 24 / 256 % 256) +
      65536 * (readU32 first 24 / 65536 % 256) +
      16777216 * (readU32 first 24 / 16777216 % 256) = readU32 first 24
    have h32' := readU32_lt hbytes 24
    have e32 : (2 : Nat) ^ 32 = 4294967296 := by norm_num
    omega
  · rw [wavHeaderBytes_cons]
    show readU16 first 34 % 256 + 256 * (readU16 first 34 / 256 % 256) =
      readU16 first 34
    have h16 := readU16_lt hbytes 34
    have e16 : (2 : Nat) ^ 16 = 65536 := by norm_num
    omega

/-- Concrete WAV chunk: a 44-byte header declaring 2 payload bytes, plus that
payload. -/
def wavChunkA : List Nat := wavHeaderBytes 1 1 16000 32000 2 16 2 ++ [7, 8]

/-- Concrete WAV chunk: a bare 44-byte header with no payload. -/
def wavChunkB : List Nat := wavHeaderBytes 1 1 16000 32000 2 16 0

/-- Witness for C8 at two concrete chunks (payload sizes 2 and 0). -/
theorem combine_wav_chunks_spec_witness :
    (validateWavHeader wavChunkA = true ∧
      (∀ c ∈ [wavChunkA, wavChunkB], 44 ≤ c.length) ∧
      (∀ x ∈ wavChunkA, x < 256) ∧
      ([wavChunkA, wavChunkB].map fun c => c.length - 44).sum + 36 < 2 ^ 32) ∧
    (∃ out, combineWavChunks [wavChunkA, wavChunkB] = Except.ok out ∧
      out.length = 44 + ([wavChunkA, wavChunkB].map fun c => c.length - 44).sum ∧
      readU32 out 40 = ([wavChunkA, wavChunkB].map fun c => c.length - 44).sum ∧
      readU32 out 4 =
        ([wavChunkA, wavChunkB].map fun c => c.length - 44).sum + 36 ∧
      readU16 out 22 = readU16 wavChunkA 22 ∧
      readU32 out 24 = readU32 wavChunkA 24 ∧
      readU16 out 34 = readU16 wavChunkA 34) :=
  ⟨⟨by decide, by decide, by decide, by decide⟩,
   combine_wav_chunks_spec wavChunkA [wavChunkB] (by decide) (by decide)
     (by decide) (by decide)⟩

/-! ## Silence filter (`WebSocketHandler._is_silent_wav`,
src/websocket_handler.py lines 222-258)

The Python code computes `rms = sqrt(sum_sq / num_samples)` and returns
`rms < rms_threshold`.  Over the reals, for a positive threshold this is
equivalent to `sum_sq < threshold^2 * num_samples`, which is how the
comparison is embedded (exactly, over `ℚ`, with no square root). -/

/-- Signed 16-bit sample from two little-endian bytes (`struct.unpack('<h')`). -/
def toInt16 (lo hi : Nat) : Int :=
  if lo + 256 * hi < 32768 then (lo + 256 * hi : Int)
  else (lo + 256 * hi : Int) - 65536

/-- `struct.unpack(f'<{num_samples}h', pcm_data[:num_samples * 2])`: consume
byte pairs; a trailing odd byte is ignored. -/
def pcmSamples : List Nat → List Int
  | lo :: hi :: rest => toInt16 lo hi :: pcmSamples rest
  | _ => []

/-- `sum(s * s for s in samples)`. -/
def sumSq (payload : List Nat) : Int :=
  ((pcmSamples payload).map fun s => s * s).sum

/-- `_is_silent_wav(audio_bytes, rms_threshold)`: buffers of at most 44 bytes
are silent; with no full sample in the payload the chunk is silent; otherwise
the RMS comparison `sqrt(sum_sq / n) < threshold` is decided exactly: for a
threshold `num/den > 0` it is `sum_sq * den² < num² * n`, and for a
non-positive threshold it is false (an RMS is never below it). -/
def isSilentWav (b : List Nat) (θ : Rat) : Bool :=
  if b.length ≤ 44 then true
  else if (b.drop 44).length / 2 = 0 then true
  else decide (0 < θ.num ∧
    sumSq (b.drop 44) * (θ.den : Int) * (θ.den : Int) <
      θ.num * θ.num * (((b.drop 44).length / 2 : Nat) : Int))

theorem pcmSamples_zero : ∀ l : List Nat, (∀ x ∈ l, x = 0) →
    ∀ s ∈ pcmSamples l, s = 0
  | [], _, s, hs => by simp [pcmSamples] at hs
  | [x], _, s, hs => by simp [pcmSamples] at hs
  | lo :: hi :: rest, h, s, hs => by
      simp only [pcmSamples, List.mem_cons] at hs
      rcases hs with hs | hs
      · have hlo : lo = 0 := h lo (by simp)
        have hhi : hi = 0 := h hi (by simp)
        simp [hs, hlo, hhi, toInt16]
      · exact pcmSamples_zero rest (fun x hx => h x (by simp [hx])) s hs

theorem sumSq_zero (l : List Nat) (h : ∀ x ∈ l, x = 0) : sumSq l = 0 := by
  unfold sumSq
  apply List.sum_eq_zero
  intro y hy
  obtain ⟨s, hs, rfl⟩ := List.mem_map.mp hy
  rw [pcmSamples_zero l h s hs]
  ring

/-- C9: for every byte buffer and positive RMS threshold, a buffer of at most
44 (header-size) bytes is classified silent, and a buffer longer than the
header whose payload bytes are all zero has zero RMS energy, below any
positive threshold, so it is classified silent. -/
theorem silence_filter_spec (b : List Nat) (θ : Rat) (hθ : 0 < θ) :
    (b.length ≤ 44 → isSilentWav b θ = true) ∧
    (44 < b.length → (∀ x ∈ b.drop 44, x = 0) → isSilentWav b θ = true) := by
  constructor
  · intro h
    simp [isSilentWav, h]
  · intro hlen hz
    unfold isSilentWav
    rw [if_neg (by omega)]
    by_cases hn : (b.drop 44).length / 2 = 0
    · rw [if_pos hn]
    · rw [if_neg hn, decide_eq_true_eq]
      have hnum : 0 < θ.num := Rat.num_pos.mpr hθ
      refine ⟨hnum, ?_⟩
      rw [sumSq_zero _ hz]
      simp only [zero_mul]
      exact mul_pos (mul_pos hnum hnum)
        (by exact_mod_cast Nat.pos_of_ne_zero hn)

/-- Witness for C9 at a 46-byte all-zero buffer and the default threshold 200. -/
theorem silence_filter_spec_witness :
    ((0 : Rat) < 200 ∧ 44 < (List.replicate 46 (0 : Nat)).length ∧
      (∀ x ∈ (List.replicate 46 (0 : Nat)).drop 44, x = 0)) ∧
    isSilentWav (List.replicate 46 (0 : Nat)) 200 = true :=
  ⟨⟨by decide, by decide, by decide⟩,
   (silence_filter_spec (List.replicate 46 (0 : Nat)) 200 (by decide)).2
     (by decide) (by decide)⟩

/-! ## WebSocket messages (src/models/websocket_messages.py) and the
audio-chunk / session paths of the handler (src/websocket_handler.py)

A pydantic model instance is embedded as the association list of its declared
fields.  Construction from an inbound JSON object keeps exactly the declared
fields (pydantic's default ignores extra keys) and fails when a required field
is missing.  Attribute access on an instance looks up a declared field; access
to an undeclared attribute is an `AttributeError`, embedded as `none`. -/

/-- Key lookup in a JSON-object / model-field association list. -/
def lookupField (m : List (Str × Str)) (k : Str) : Option Str :=
  (m.find? fun p => p.1 == k).map (fun p => p.2)

/-- `AudioChunkMessage(**message)`: declared fields are `type` (defaulting to
the literal `"audio_chunk"`) and the required `audio_data`; every other
inbound key — including `source` — is dropped. -/
def parseAudioChunkMessage (raw : List (Str × Str)) :
    Option (List (Str × Str)) :=
  match lookupField raw (pyStr "audio_data") with
  | none => none
  | some ad =>
    let ty := (lookupField raw (pyStr "type")).getD (pyStr "audio_chunk")
    if ty == pyStr "audio_chunk" then
      some [(pyStr "type", ty), (pyStr "audio_data", ad)]
    else none

/-- `StartSessionMessage(**message)`: declared fields are `type` (defaulting
to `"start_session"`) and the required `patient`; no `appointmentId` field is
declared. -/
def parseStartSessionMessage (raw : List (Str × Str)) :
    Option (List (Str × Str)) :=
  match lookupField raw (pyStr "patient") with
  | none => none
  | some pat =>
    let ty := (lookupField raw (pyStr "type")).getD (pyStr "start_session")
    if ty == pyStr "start_session" then
      some [(pyStr "type", ty), (pyStr "patient", pat)]
    else none

/-- Python attribute access on a model instance: the declared field's value,
or an `AttributeError` (`none`) for an undeclared attribute. -/
def getAttr (obj : List (Str × Str)) (k : Str) : Option Str := lookupField obj k

/-- `TranscriptChunk` (src/models/consultation.py). -/
structure TChunk where
  text : Str
  source : Str
  speaker : Str
  timestamp : Nat
deriving DecidableEq

/-- The fields of `ConsultationSession` touched by the audio-chunk and
extraction paths. -/
structure SessionSt where
  transcriptChunks : List TChunk
  micChunkPaths : List Str
  tabChunkPaths : List Str
  micChunkCount : Nat
  tabChunkCount : Nat
  extraction : ExtractionResult
deriving DecidableEq

/-- A freshly created session. -/
def SessionSt.init : SessionSt := ⟨[], [], [], 0, 0, ⟨[], [], [], [], []⟩⟩

/-- `ConsultationSession.add_transcript_chunk`: append only when the chunk
text is non-blank after trimming. -/
def addTranscriptChunk (s : SessionSt) (c : TChunk) : SessionSt :=
  if pyStrip c.text ≠ [] then
    { s with transcriptChunks := s.transcriptChunks ++ [c] }
  else s

/-- `ConsultationSession.get_full_transcript`: newline-joined
`"<Speaker>: <text>"` lines in arrival order. -/
def getFullTranscript (s : SessionSt) : Str :=
  List.intercalate ['\n']
    (s.transcriptChunks.map fun c => c.speaker ++ pyStr ": " ++ c.text)

/-- `ConsultationSession.add_audio_chunk_path`: record the path on the track
for its source. -/
def addAudioChunkPath (s : SessionSt) (p : Str) (source : Str) : SessionSt :=
  if source == pyStr "tab" then
    { s with tabChunkPaths := s.tabChunkPaths ++ [p] }
  else
    { s with micChunkPaths := s.micChunkPaths ++ [p] }

/-- `f"{n:04d}"`. -/
def pad4 (n : Nat) : Str :=
  List.replicate (4 - (toString n).data.length) '0' ++ (toString n).data

/-- `AudioStorageService.save_chunk`: returns the chunk path
`f"{source}_chunk_{chunk_index:04d}.wav"` rendered from its arguments, or
`None` when storage is disabled. -/
def saveChunkPath (storageEnabled : Bool) (source : Str) (idx : Nat) :
    Option Str :=
  if storageEnabled then
    some (source ++ pyStr "_chunk_" ++ pad4 idx ++ pyStr ".wav")
  else none

/-- Observable effects of one `_handle_audio_chunk` call. -/
structure ChunkEffects where
  session : SessionSt
  sentError : Option Str
  transcriptionCalled : Bool
  chunkArchived : Bool
  extractionScheduled : Option Str
deriving DecidableEq

/-- `_handle_audio_chunk` (src/websocket_handler.py lines 323-393): parse the
message, decode, drop silent chunks, then read `audio_msg.source` — which the
declared `AudioChunkMessage` model does not carry, so the access raises
`AttributeError` and the generic except-branch answers with an error.  The
remaining pipeline (archive chunk on the source's track, transcribe, build
the speaker-labelled fragment, schedule extraction with the full transcript)
is written out as in the source. -/
def handleAudioChunk (raw : List (Str × Str)) (decode : Str → List Nat)
    (transcribe : List Nat → Str) (storageEnabled : Bool) (elapsed : Nat)
    (sess : SessionSt) : ChunkEffects :=
  match parseAudioChunkMessage raw with
  | none =>
      ⟨sess, some (pyStr "Failed to process audio: validation error"),
        false, false, none⟩
  | some msg =>
    let audioBytes := decode ((getAttr msg (pyStr "audio_data")).getD [])
    if isSilentWav audioBytes 200 then
      ⟨sess, none, false, false, none⟩
    else
      match getAttr msg (pyStr "source") with
      | none =>
          ⟨sess, some (pyStr "Failed to process audio: AttributeError"),
            false, false, none⟩
      | some srcVal =>
          let source := if srcVal == [] then pyStr "mic" else srcVal
          let chunkIndex :=
            if source == pyStr "mic" then sess.micChunkCount
            else sess.tabChunkCount
          let afterSave :=
            match saveChunkPath storageEnabled source chunkIndex with
            | some p =>
                let s1 := addAudioChunkPath sess p source
                if source == pyStr "tab" then
                  { s1 with tabChunkCount := s1.tabChunkCount + 1 }
                else
                  { s1 with micChunkCount := s1.micChunkCount + 1 }
            | none => sess
          let archived := (saveChunkPath storageEnabled source chunkIndex).isSome
          let transcript := transcribe audioBytes
          if pyStrip transcript == [] then
            ⟨afterSave, none, true, archived, none⟩
          else
            let chunk : TChunk :=
              ⟨pyStrip transcript, source,
                (if source == pyStr "mic" then pyStr "Doctor"
                 else pyStr "Patient"), elapsed⟩
            let s2 := addTranscriptChunk afterSave chunk
            ⟨s2, none, true, archived, some (getFullTranscript s2)⟩

/-- Observable effects of one `_handle_start_session` call. -/
structure StartEffects where
  sessionCreated : Bool
  sentError : Option Str
deriving DecidableEq

/-- `_handle_start_session` (lines 192-220): parse the message, then read
`start_msg.appointmentId` — not a declared field of `StartSessionMessage`, so
the access raises `AttributeError`; the except-branch sends an error and
re-raises, and no session is created. -/
def handleStartSession (raw : List (Str × Str)) : StartEffects :=
  match parseStartSessionMessage raw with
  | none => ⟨false, some (pyStr "Failed to start session")⟩
  | some msg =>
    match getAttr msg (pyStr "appointmentId") with
    | none => ⟨false, some (pyStr "Failed to start session: AttributeError")⟩
    | some _ => ⟨true, none⟩

/-- `_handle_extraction` (lines 260-321): unless `ignore_length_check`, skip
when the trimmed transcript is shorter than
`settings.extraction.min_transcript_length` (the configured minimum, a
parameter here); otherwise call the extraction backend with the transcript
and the previous snapshot and merge the result into the session.  The first
component records whether the backend was called. -/
def handleExtraction (minTranscriptLength : Nat)
    (extractBackend : Str → ExtractionResult → ExtractionResult)
    (sess : SessionSt) (fullTranscript : Str) (ignoreLengthCheck : Bool) :
    Bool × SessionSt :=
  if ¬ignoreLengthCheck ∧
      (pyStrip fullTranscript).length < minTranscriptLength then
    (false, sess)
  else
    (true, { sess with extraction :=
        sess.extraction.merge (extractBackend fullTranscript sess.extraction) })

/-- Extraction part of `_finalize_session` (lines 464-483): when the full
transcript is non-blank, run `_handle_extraction` with
`ignore_length_check=True`.  (Audio consolidation is modelled separately by
`combineWavChunks`.) -/
def finalizeSession (minTranscriptLength : Nat)
    (extractBackend : Str → ExtractionResult → ExtractionResult)
    (sess : SessionSt) : Bool × SessionSt :=
  if pyStrip (getFullTranscript sess) ≠ [] then
    handleExtraction minTranscriptLength extractBackend sess
      (getFullTranscript sess) true
  else (false, sess)

/-- The scenario's `start_session` message for patient "A". -/
def scenarioStartMsg : List (Str × Str) :=
  [(pyStr "type", pyStr "start_session"), (pyStr "patient", pyStr "A")]

/-- The scenario's mic `audio_chunk` message with base64 audio and
`source: "mic"`. -/
def scenarioChunkMsg : List (Str × Str) :=
  [(pyStr "type", pyStr "audio_chunk"),
   (pyStr "audio_data", pyStr "UklGRg=="), (pyStr "source", pyStr "mic")]

/-- A decoded non-silent WAV buffer: one 16-bit sample of value 10000. -/
def loudBytes : List Nat := wavHeaderBytes 1 1 16000 32000 2 16 2 ++ [16, 39]

/-- C3 (divergence witness): on the scenario's inputs the handler fails
instead of running the pipeline.  `StartSessionMessage` declares no
`appointmentId` and `AudioChunkMessage` declares no `source`, yet
`_handle_start_session` reads `start_msg.appointmentId` and
`_handle_audio_chunk` reads `audio_msg.source`; both accesses raise
`AttributeError`.  Session start errors out and creates no session, and a
non-silent mic chunk is answered with an error: transcription is never
reached, no fragment is stored, and extraction is never scheduled. -/
theorem scenario_source_field_missing :
    handleStartSession scenarioStartMsg =
      ⟨false, some (pyStr "Failed to start session: AttributeError")⟩ ∧
    isSilentWav loudBytes 200 = false ∧
    handleAudioChunk scenarioChunkMsg (fun _ => loudBytes)
        (fun _ => pyStr "headache") true 0 SessionSt.init =
      ⟨SessionSt.init, some (pyStr "Failed to process audio: AttributeError"),
        false, false, none⟩ := by
  refine ⟨by decide, by decide, by decide⟩

/-- The scenario's silent chunk message (same declared fields, silent audio). -/
def silentChunkMsg : List (Str × Str) :=
  [(pyStr "type", pyStr "audio_chunk"),
   (pyStr "audio_data", pyStr "AAAA"), (pyStr "source", pyStr "mic")]

/-- Counterexample for C4: a chunk classified silent is dropped BEFORE the
chunk-store save (`return` precedes `audio_storage.save_chunk` in
`_handle_audio_chunk`), so the raw audio chunk is NOT archived: with storage
enabled, the handler reports no archive and both track path lists stay
empty. -/
theorem silent_chunk_not_archived :
    (handleAudioChunk silentChunkMsg (fun _ => List.replicate 46 0)
        (fun _ => pyStr "x") true 0 SessionSt.init).chunkArchived = false ∧
    (handleAudioChunk silentChunkMsg (fun _ => List.replicate 46 0)
        (fun _ => pyStr "x") true 0 SessionSt.init).session.micChunkPaths
      = [] ∧
    (handleAudioChunk silentChunkMsg (fun _ => List.replicate 46 0)
        (fun _ => pyStr "x") true 0 SessionSt.init).session.tabChunkPaths
      = [] := by
  refine ⟨by decide, by decide, by decide⟩

/-- C4 (amended): every inbound audio chunk whose decoded audio the silence
filter classifies silent is dropped before transcription: no transcript
fragment is stored, no extraction is scheduled, no error is sent, and the raw
chunk is NOT archived — the handler returns before the chunk-store save, so
the session is entirely unchanged. -/
theorem silent_chunk_dropped_entirely (raw msg : List (Str × Str))
    (decode : Str → List Nat) (transcribe : List Nat → Str)
    (storageEnabled : Bool) (elapsed : Nat) (sess : SessionSt)
    (hp : parseAudioChunkMessage raw = some msg)
    (hs : isSilentWav (decode ((getAttr msg (pyStr "audio_data")).getD []))
      200 = true) :
    handleAudioChunk raw decode transcribe storageEnabled elapsed sess =
      ⟨sess, none, false, false, none⟩ := by
  simp [handleAudioChunk, hp, hs]

/-- Witness for C4 (amended) at the concrete silent chunk. -/
theorem silent_chunk_dropped_entirely_witness :
    (parseAudioChunkMessage silentChunkMsg =
      some [(pyStr "type", pyStr "audio_chunk"),
            (pyStr "audio_data", pyStr "AAAA")] ∧
     isSilentWav ((fun _ => List.replicate 46 0 : Str → List Nat)
        ((getAttr [(pyStr "type", pyStr "audio_chunk"),
            (pyStr "audio_data", pyStr "AAAA")] (pyStr "audio_data")).getD []))
        200 = true) ∧
    handleAudioChunk silentChunkMsg (fun _ => List.replicate 46 0)
        (fun _ => pyStr "y") false 3 SessionSt.init =
      ⟨SessionSt.init, none, false, false, none⟩ :=
  ⟨⟨by decide, by decide⟩,
   silent_chunk_dropped_entirely silentChunkMsg
     [(pyStr "type", pyStr "audio_chunk"), (pyStr "audio_data", pyStr "AAAA")]
     (fun _ => List.replicate 46 0) (fun _ => pyStr "y") false 3
     SessionSt.init (by decide) (by decide)⟩

/-- C10: through the regular (non-final) path, a transcript whose trimmed
length is below the configured minimum returns without calling the extraction
backend and leaves the session's cumulative snapshot unchanged; the
final-extraction flag bypasses the check and always reaches the backend, and
the teardown path (`_finalize_session`) passes that flag. -/
theorem extraction_min_length_gate (minLen : Nat)
    (backend : Str → ExtractionResult → ExtractionResult) (sess : SessionSt)
    (t : Str) :
    ((pyStrip t).length < minLen →
      handleExtraction minLen backend sess t false = (false, sess)) ∧
    (handleExtraction minLen backend sess t true).1 = true ∧
    (pyStrip (getFullTranscript sess) ≠ [] →
      finalizeSession minLen backend sess =
        handleExtraction minLen backend sess (getFullTranscript sess) true ∧
      (finalizeSession minLen backend sess).1 = true) := by
  refine ⟨fun h => ?_, ?_, fun h => ?_⟩
  · simp [handleExtraction, h]
  · simp [handleExtraction]
  · constructor
    · simp [finalizeSession, h]
    · simp [finalizeSession, h, handleExtraction]

/-- A session holding one transcribed fragment. -/
def sessionWithFragment : SessionSt :=
  { SessionSt.init with transcriptChunks :=
      [⟨pyStr "hello", pyStr "mic", pyStr "Doctor", 0⟩] }

/-- Witness for C10 at a concrete short transcript and session. -/
theorem extraction_min_length_gate_witness :
    ((pyStrip (pyStr "hi")).length < 10 ∧
      pyStrip (getFullTranscript sessionWithFragment) ≠ []) ∧
    (handleExtraction 10 (fun _ e => e) sessionWithFragment (pyStr "hi") false
        = (false, sessionWithFragment) ∧
      (handleExtraction 10 (fun _ e => e) sessionWithFragment (pyStr "hi")
        true).1 = true ∧
      (finalizeSession 10 (fun _ e => e) sessionWithFragment).1 = true) :=
  ⟨⟨by decide, by decide⟩,
   (extraction_min_length_gate 10 (fun _ e => e) sessionWithFragment
      (pyStr "hi")).1 (by decide),
   (extraction_min_length_gate 10 (fun _ e => e) sessionWithFragment
      (pyStr "hi")).2.1,
   ((extraction_min_length_gate 10 (fun _ e => e) sessionWithFragment
      (pyStr "hi")).2.2 (by decide)).2⟩

/-! ## Extraction scheduler (src/websocket_handler.py lines 395-454)

Per-session scheduler state, as held in the handler's dictionaries
(`_extraction_running`, `_extraction_pending`, `_last_extraction_time`,
`_extraction_timer`).  Under asyncio's single-threaded cooperative scheduling
each of `_schedule_extraction`, `_start_extraction_bg`,
`_fire_pending_extraction` and the `finally` block of `_run_extraction_bg`
runs atomically (none of them suspends), so the interleaving semantics is an
event-step relation with three events: a schedule call, the timer callback
firing, and a background task completing.  `inflight` lists the transcripts
of spawned, not yet completed background tasks; `startLog` records every task
start with its time and kind; monotonic time is an explicit `Nat` clock. -/

/-- `_EXTRACTION_THROTTLE_SECS`. -/
def throttleSecs : Nat := 5

/-- How a background extraction task came to be started: an immediate start
from `_schedule_extraction`, the delayed-timer path
(`_fire_pending_extraction`), or the drain in `_run_extraction_bg`'s
`finally` block. -/
inductive StartKind where
  | immediate
  | timed
  | drain
deriving DecidableEq

/-- Scheduler state for one session. -/
structure SchedState where
  clock : Nat
  running : Bool
  pending : Option String
  lastStart : Nat
  timerDeadline : Option Nat
  inflight : List String
  startLog : List (Nat × String × StartKind)
deriving DecidableEq

/-- State before any event: `_extraction_running` / `_extraction_pending` /
`_extraction_timer` hold nothing and `_last_extraction_time.get(sid, 0)`
gives 0. -/
def initState : SchedState := ⟨0, false, none, 0, none, [], []⟩

/-- `_start_extraction_bg`: mark running, stamp `last_extraction_time`,
cancel any pending timer, and spawn the background task. -/
def startExtractionBg (k : StartKind) (t : String) (now : Nat)
    (s : SchedState) : SchedState :=
  { s with running := true, lastStart := now, timerDeadline := none,
           inflight := t :: s.inflight,
           startLog := (now, t, k) :: s.startLog }

/-- `_schedule_extraction`: if running, overwrite the pending slot; else if
the throttle interval has elapsed since the last start, start immediately;
else queue and — only when no timer is outstanding — schedule one for the
remaining interval (`now + (throttle - elapsed) = lastStart + throttle`). -/
def scheduleExtraction (t : String) (now : Nat) (s : SchedState) :
    SchedState :=
  if s.running then { s with pending := some t }
  else if throttleSecs ≤ now - s.lastStart then
    startExtractionBg .immediate t now s
  else
    { s with pending := some t,
             timerDeadline := match s.timerDeadline with
               | some d => some d
               | none => some (s.lastStart + throttleSecs) }

/-- `_fire_pending_extraction`: pop the timer, then start the queued request
if one is present and nothing is running. -/
def firePendingExtraction (now : Nat) (s : SchedState) : SchedState :=
  let s1 := { s with timerDeadline := none }
  match s1.pending, s1.running with
  | some t, false => startExtractionBg .timed t now { s1 with pending := none }
  | _, _ => s1

/-- The `finally` block of `_run_extraction_bg`: the completing task leaves
`inflight`, `running` is cleared, and a queued pending request is drained by
an immediate start (exempt from the throttle check). -/
def completeExtraction (now : Nat) (s : SchedState) : SchedState :=
  let s1 := { s with running := false, inflight := s.inflight.drop 1 }
  match s1.pending with
  | some t => startExtractionBg .drain t now { s1 with pending := none }
  | none => s1

/-- Events of one session's scheduler, each stamped with the monotonic time
at which it runs. -/
inductive SchedEvent where
  | schedule (t : String) (now : Nat)
  | timerFire (now : Nat)
  | complete (now : Nat)
deriving DecidableEq

/-- One atomic scheduler step.  `none` marks an event that cannot occur:
time running backwards, the timer callback with no outstanding timer or
before its deadline, or a completion with no task in flight. -/
def stepE : SchedEvent → SchedState → Option SchedState
  | .schedule t now, s =>
      if s.clock ≤ now then
        some (scheduleExtraction t now { s with clock := now })
      else none
  | .timerFire now, s =>
      match s.timerDeadline with
      | some d =>
          if s.clock ≤ now ∧ d ≤ now then
            some (firePendingExtraction now { s with clock := now })
          else none
      | none => none
  | .complete now, s =>
      if s.clock ≤ now ∧ s.inflight ≠ [] then
        some (completeExtraction now { s with clock := now })
      else none

/-- States reachable from `initState` by valid events. -/
inductive Reachable : SchedState → Prop
  | init : Reachable initState
  | step (s : SchedState) (e : SchedEvent) (s' : SchedState)
      (h1 : Reachable s) (h2 : stepE e s = some s') : Reachable s'

/-- Scheduler state invariant: `running` mirrors a single in-flight task,
`last_extraction_time` never exceeds the clock, and an outstanding timer's
deadline is exactly `lastStart + throttleSecs`. -/
def SchedInv (s : SchedState) : Prop :=
  (s.running = true → s.inflight.length = 1) ∧
  (s.running = false → s.inflight = []) ∧
  s.lastStart ≤ s.clock ∧
  (∀ d, s.timerDeadline = some d → d = s.lastStart + throttleSecs)

theorem schedInv_init : SchedInv initState := by
  refine ⟨?_, ?_, ?_, ?_⟩ <;> simp [initState, SchedInv]

theorem schedInv_startBg (k : StartKind) (t : String) (now : Nat)
    (s : SchedState) (hin : s.inflight = []) (hcl : now ≤ s.clock) :
    SchedInv (startExtractionBg k t now s) := by
  refine ⟨fun _ => ?_, fun hf => ?_, ?_, fun d hd => ?_⟩
  · simp [startExtractionBg, hin]
  · simp [startExtractionBg] at hf
  · simpa [startExtractionBg] using hcl
  · simp [startExtractionBg] at hd

theorem schedInv_step (s : SchedState) (e : SchedEvent) (s' : SchedState)
    (hinv : SchedInv s) (h : stepE e s = some s') : SchedInv s' := by
  obtain ⟨hi1, hi2, hi3, hi4⟩ := hinv
  cases e with
  | schedule t now =>
    simp only [stepE] at h
    split at h
    case isFalse => exact absurd h (by simp)
    case isTrue hc =>
      injection h with h
      subst h
      unfold scheduleExtraction
      by_cases hr : s.running = true
      · rw [if_pos hr]
        refine ⟨fun _ => ?_, fun hf => ?_, ?_, fun d hd => ?_⟩
        · simpa using hi1 hr
        · simp only at hf
          rw [hf] at hr
          exact absurd hr (by simp)
        · simpa using le_trans hi3 hc
        · simpa using hi4 d (by simpa using hd)
      · have hrf : s.running = false := by
          revert hr
          cases s.running <;> simp
        rw [if_neg hr]
        by_cases ht : throttleSecs ≤
            now - ({ s with clock := now } : SchedState).lastStart
        · rw [if_pos ht]
          exact schedInv_startBg _ _ _ _ (hi2 hrf) (by simp)
        · rw [if_neg ht]
          refine ⟨fun hg => ?_, fun _ => ?_, ?_, fun d hd => ?_⟩
          · simp only at hg
            rw [hg] at hrf
            exact absurd hrf (by simp)
          · simpa using hi2 hrf
          · simpa using le_trans hi3 hc
          · simp only at hd
            rcases he : s.timerDeadline with _ | d0
            · rw [he] at hd
              simp at hd
              simpa using hd.symm
            · rw [he] at hd
              simp at hd
              subst hd
              simpa using hi4 d0 he
  | timerFire now =>
    simp only [stepE] at h
    split at h
    · rename_i d0 he
      split at h
      case isFalse => exact absurd h (by simp)
      case isTrue hc =>
        injection h with h
        subst h
        unfold firePendingExtraction
        rcases hp : s.pending with _ | t0
        · simp only [hp]
          refine ⟨fun hg => ?_, fun hf => ?_, ?_, fun d hd => ?_⟩
          · simpa using hi1 (by simpa using hg)
          · simpa using hi2 (by simpa using hf)
          · simpa using le_trans hi3 hc.1
          · simp at hd
        · by_cases hr : s.running = true
          · simp only [hp, hr]
            refine ⟨fun _ => ?_, fun hf => ?_, ?_, fun d hd => ?_⟩
            · simpa using hi1 hr
            · exact absurd hf (by simp)
            · simpa using le_trans hi3 hc.1
            · simp at hd
          · have hrf : s.running = false := by
              revert hr
              cases s.running <;> simp
            simp only [hp, hrf]
            exact schedInv_startBg _ _ _ _ (hi2 hrf) (by simp)
    · exact absurd h (by simp)
  | complete now =>
    simp only [stepE] at h
    split at h
    case isFalse => exact absurd h (by simp)
    case isTrue hc =>
      injection h with h
      subst h
      have hr : s.running = true := by
        cases hrb : s.running
        · exact absurd (hi2 hrb) hc.2
        · rfl
      have hdrop : s.inflight.drop 1 = [] := by
        have hone := hi1 hr
        rcases hl : s.inflight with _ | ⟨a, l⟩
        · simp [hl]
        · rw [hl] at hone
          simp only [List.length_cons] at hone
          show l = []
          exact List.eq_nil_of_length_eq_zero (by omega)
      unfold completeExtraction
      rcases hp : s.pending with _ | t0
      · simp only [hp]
        refine ⟨fun hg => ?_, fun _ => ?_, ?_, fun d hd => ?_⟩
        · simp at hg
        · simpa using hdrop
        · simpa using le_trans hi3 hc.1
        · simpa using hi4 d (by simpa using hd)
      · simp only [hp]
        exact schedInv_startBg _ _ _ _ (by simpa using hdrop) (by simp)

theorem schedInv_reachable (s : SchedState) (h : Reachable s) : SchedInv s := by
  induction h with
  | init => exact schedInv_init
  | step s e s' h1 h2 ih => exact schedInv_step s e s' ih h2

theorem startLog_ne_cons (l : List (Nat × String × StartKind))
    (x : Nat × String × StartKind) : l ≠ x :: l := by
  intro h
  have hlen := congrArg List.length h
  simp at hlen

/-- Classification of the steps that start a task: whenever a step pushes an
entry on the start log, the resulting timer is cancelled, and the step was an
immediate schedule start (throttle satisfied), the timer firing at or after
its deadline, or a drain on completion. -/
theorem step_start_cases (s : SchedState) (e : SchedEvent) (s' : SchedState)
    (h : stepE e s = some s') (x : Nat × String × StartKind)
    (hlog : s'.startLog = x :: s.startLog) :
    s'.timerDeadline = none ∧
    ((∃ t now, e = SchedEvent.schedule t now ∧
        x = (now, t, StartKind.immediate) ∧ s.running = false ∧
        throttleSecs ≤ now - s.lastStart ∧ s.clock ≤ now) ∨
     (∃ now, e = SchedEvent.timerFire now ∧ x.2.2 = StartKind.timed ∧
        x.1 = now ∧ (∃ d, s.timerDeadline = some d ∧ d ≤ now) ∧
        s.clock ≤ now) ∨
     (∃ now, e = SchedEvent.complete now ∧ x.2.2 = StartKind.drain)) := by
  cases e with
  | schedule t0 m =>
    simp only [stepE] at h
    split at h
    case isFalse => exact absurd h (by simp)
    case isTrue hc =>
      injection h with h
      subst h
      by_cases hr : s.running = true
      · have hred : (scheduleExtraction t0 m { s with clock := m }).startLog
            = s.startLog := by
          simp [scheduleExtraction, hr]
        rw [hred] at hlog
        exact absurd hlog (startLog_ne_cons s.startLog x)
      · have hrf : s.running = false := by
          revert hr
          cases s.running <;> simp
        by_cases ht : throttleSecs ≤ m - s.lastStart
        · have hlogred :
              (scheduleExtraction t0 m { s with clock := m }).startLog
                = (m, t0, StartKind.immediate) :: s.startLog := by
            simp [scheduleExtraction, hrf, ht, startExtractionBg]
          have htd :
              (scheduleExtraction t0 m { s with clock := m }).timerDeadline
                = none := by
            simp [scheduleExtraction, hrf, ht, startExtractionBg]
          rw [hlogred] at hlog
          injection hlog with h1 h2
          exact ⟨htd, Or.inl ⟨t0, m, rfl, h1.symm, hrf, ht, hc⟩⟩
        · have hred : (scheduleExtraction t0 m { s with clock := m }).startLog
              = s.startLog := by
            simp [scheduleExtraction, hrf, ht]
          rw [hred] at hlog
          exact absurd hlog (startLog_ne_cons s.startLog x)
  | timerFire m =>
    simp only [stepE] at h
    split at h
    · rename_i d0 he
      split at h
      case isFalse => exact absurd h (by simp)
      case isTrue hc =>
        injection h with h
        subst h
        have hpc : s.pending = none ∨ ∃ t0, s.pending = some t0 := by
          cases s.pending <;> simp
        rcases hpc with hp | ⟨t0, hp⟩
        · have hred : (firePendingExtraction m { s with clock := m }).startLog
              = s.startLog := by
            simp [firePendingExtraction, hp]
          rw [hred] at hlog
          exact absurd hlog (startLog_ne_cons s.startLog x)
        · by_cases hr : s.running = true
          · have hred :
                (firePendingExtraction m { s with clock := m }).startLog
                  = s.startLog := by
              simp [firePendingExtraction, hp, hr]
            rw [hred] at hlog
            exact absurd hlog (startLog_ne_cons s.startLog x)
          · have hrf : s.running = false := by
              revert hr
              cases s.running <;> simp
            have hlogred :
                (firePendingExtraction m { s with clock := m }).startLog
                  = (m, t0, StartKind.timed) :: s.startLog := by
              simp [firePendingExtraction, hp, hrf, startExtractionBg]
            have htd :
                (firePendingExtraction m { s with clock := m }).timerDeadline
                  = none := by
              simp [firePendingExtraction, hp, hrf, startExtractionBg]
            rw [hlogred] at hlog
            injection hlog with h1 h2
            refine ⟨htd, Or.inr (Or.inl ⟨m, rfl, ?_, ?_, ⟨d0, he, hc.2⟩,
              hc.1⟩)⟩
            · rw [← h1]
            · rw [← h1]
    · exact absurd h (by simp)
  | complete m =>
    simp only [stepE] at h
    split at h
    case isFalse => exact absurd h (by simp)
    case isTrue hc =>
      injection h with h
      subst h
      have hpc : s.pending = none ∨ ∃ t0, s.pending = some t0 := by
        cases s.pending <;> simp
      rcases hpc with hp | ⟨t0, hp⟩
      · have hred : (completeExtraction m { s with clock := m }).startLog
            = s.startLog := by
          simp [completeExtraction, hp]
        rw [hred] at hlog
        exact absurd hlog (startLog_ne_cons s.startLog x)
      · have hlogred : (completeExtraction m { s with clock := m }).startLog
            = (m, t0, StartKind.drain) :: s.startLog := by
          simp [completeExtraction, hp, startExtractionBg]
        have htd :
            (completeExtraction m { s with clock := m }).timerDeadline
              = none := by
          simp [completeExtraction, hp, startExtractionBg]
        rw [hlogred] at hlog
        injection hlog with h1 h2
        exact ⟨htd, Or.inr (Or.inr ⟨m, rfl, by rw [← h1]⟩)⟩

/-- C1: for every session and every interleaving of schedule calls,
timer firings and task completions, (a) at most one extraction task is in
flight in every reachable state; (b) a schedule call arriving while a task is
running only overwrites the single pending slot with the new transcript —
no task is spawned and the in-flight set is unchanged, superseding any older
pending request; (c) a completion that finds a non-empty pending slot
immediately starts exactly one new task carrying the queued (most recent)
transcript and clears the slot — so a burst of schedule calls coalesces into
the pending slot rather than one backend call each. -/
theorem extraction_single_flight :
    (∀ s, Reachable s → s.inflight.length ≤ 1) ∧
    (∀ s t now s', Reachable s → s.running = true →
      stepE (SchedEvent.schedule t now) s = some s' →
      s'.pending = some t ∧ s'.inflight = s.inflight ∧
        s'.startLog = s.startLog) ∧
    (∀ s t now s', Reachable s → s.pending = some t →
      stepE (SchedEvent.complete now) s = some s' →
      s'.running = true ∧ s'.inflight = [t] ∧ s'.pending = none ∧
        s'.startLog = (now, t, StartKind.drain) :: s.startLog) := by
  refine ⟨?_, ?_, ?_⟩
  · intro s hs
    obtain ⟨hi1, hi2, -, -⟩ := schedInv_reachable s hs
    cases hrb : s.running
    · simp [hi2 hrb]
    · simp [hi1 hrb]
  · intro s t now s' hs hr h
    simp only [stepE] at h
    split at h
    case isFalse => exact absurd h (by simp)
    case isTrue hc =>
      injection h with h
      subst h
      unfold scheduleExtraction
      rw [if_pos (by simpa using hr)]
      exact ⟨rfl, rfl, rfl⟩
  · intro s t now s' hs hp h
    obtain ⟨hi1, hi2, -, -⟩ := schedInv_reachable s hs
    simp only [stepE] at h
    split at h
    case isFalse => exact absurd h (by simp)
    case isTrue hc =>
      injection h with h
      subst h
      have hr : s.running = true := by
        cases hrb : s.running
        · exact absurd (hi2 hrb) hc.2
        · rfl
      have hdrop : s.inflight.drop 1 = [] := by
        have hone := hi1 hr
        rcases hl : s.inflight with _ | ⟨a, l⟩
        · simp [hl]
        · rw [hl] at hone
          simp only [List.length_cons] at hone
          show l = []
          exact List.eq_nil_of_length_eq_zero (by omega)
      unfold completeExtraction
      rw [hp]
      refine ⟨rfl, ?_, rfl, rfl⟩
      simp [startExtractionBg, hdrop]

/-- C2: every task start through the schedule path — an immediate start or
the delayed-timer firing — happens at least `throttleSecs` (5) after the
previous start (`lastStart`); a schedule call arriving before the interval
has elapsed while nothing runs queues the request and leaves exactly one
single-shot timer set to `lastStart + throttleSecs` (the remaining interval),
scheduling a new one only if none is outstanding; every start cancels any
outstanding timer; and the only start exempt from the spacing check is the
drain start, which occurs only on a task's completion. -/
theorem extraction_throttle :
    (∀ s e s' now t k, Reachable s → stepE e s = some s' →
      s'.startLog = (now, t, k) :: s.startLog → k ≠ StartKind.drain →
      s.lastStart + throttleSecs ≤ now) ∧
    (∀ s e s' x, Reachable s → stepE e s = some s' →
      s'.startLog = x :: s.startLog → s'.timerDeadline = none) ∧
    (∀ s t now s', Reachable s → s.running = false →
      now - s.lastStart < throttleSecs →
      stepE (SchedEvent.schedule t now) s = some s' →
      s'.pending = some t ∧
        s'.timerDeadline = some (s.lastStart + throttleSecs) ∧
        s'.startLog = s.startLog) ∧
    (∀ s e s' now t, Reachable s → stepE e s = some s' →
      s'.startLog = (now, t, StartKind.drain) :: s.startLog →
      ∃ m, e = SchedEvent.complete m) := by
  refine ⟨?_, ?_, ?_, ?_⟩
  · intro s e s' now t k hs h hlog hk
    obtain ⟨-, -, hi3, hi4⟩ := schedInv_reachable s hs
    obtain ⟨-, hcase⟩ := step_start_cases s e s' h (now, t, k) hlog
    rcases hcase with ⟨t0, m, -, hx, -, ht, hclk⟩ | ⟨m, -, -, hx1, ⟨d, hd, hdm⟩, hclk⟩
      | ⟨m, -, hx⟩
    · obtain ⟨rfl, -, -⟩ : m = now ∧ t0 = t ∧ StartKind.immediate = k := by
        simpa using hx.symm
      omega
    · have hd5 := hi4 d hd
      simp only at hx1
      omega
    · exact absurd (by simpa using hx) hk
  · intro s e s' x hs h hlog
    exact (step_start_cases s e s' h x hlog).1
  · intro s t now s' hs hrf hlt h
    obtain ⟨-, -, hi3, hi4⟩ := schedInv_reachable s hs
    simp only [stepE] at h
    split at h
    case isFalse => exact absurd h (by simp)
    case isTrue hc =>
      injection h with h
      subst h
      have hcond : ¬ throttleSecs ≤
          now - ({ s with clock := now } : SchedState).lastStart := by
        show ¬ throttleSecs ≤ now - s.lastStart
        omega
      have hpend :
          (scheduleExtraction t now { s with clock := now }).pending
            = some t := by
        simp [scheduleExtraction, hrf, hcond]
      have hlog :
          (scheduleExtraction t now { s with clock := now }).startLog
            = s.startLog := by
        simp [scheduleExtraction, hrf, hcond]
      have htd :
          (scheduleExtraction t now { s with clock := now }).timerDeadline
            = some (s.lastStart + throttleSecs) := by
        rcases he : s.timerDeadline with _ | d0
        · simp [scheduleExtraction, hrf, hcond, he]
        · simp [scheduleExtraction, hrf, hcond, he, hi4 d0 he]
      exact ⟨hpend, htd, hlog⟩
  · intro s e s' now t hs h hlog
    obtain ⟨-, hcase⟩ := step_start_cases s e s' h (now, t, StartKind.drain) hlog
    rcases hcase with ⟨t0, m, -, hx, -⟩ | ⟨m, -, hx1, -⟩ | ⟨m, he, -⟩
    · exact absurd (congrArg (fun p => p.2.2) hx) (by simp)
    · exact absurd hx1 (by simp)
    · exact ⟨m, he⟩

/-- Scheduler state after an immediate start of transcript "a" at time 5. -/
def schedS1 : SchedState :=
  ⟨5, true, none, 5, none, ["a"], [(5, "a", StartKind.immediate)]⟩

/-- `schedS1` after a schedule call for "b" at time 6 while "a" runs. -/
def schedS2 : SchedState :=
  ⟨6, true, some "b", 5, none, ["a"], [(5, "a", StartKind.immediate)]⟩

/-- `schedS1` after its task completes at time 7 with nothing pending. -/
def schedS3 : SchedState :=
  ⟨7, false, none, 5, none, [], [(5, "a", StartKind.immediate)]⟩

/-- `schedS3` after a schedule call for "c" at time 9 (too soon): queued with
a timer for `lastStart + throttleSecs = 10`. -/
def schedS4 : SchedState :=
  ⟨9, false, some "c", 5, some 10, [], [(5, "a", StartKind.immediate)]⟩

/-- Witness for C1: at the concrete reachable state `schedS1` (task "a"
running), a schedule call for "b" only overwrites the pending slot. -/
theorem extraction_single_flight_witness :
    (Reachable schedS1 ∧ schedS1.running = true ∧
      stepE (SchedEvent.schedule "b" 6) schedS1 = some schedS2) ∧
    (schedS2.pending = some "b" ∧ schedS2.inflight = schedS1.inflight ∧
      schedS2.startLog = schedS1.startLog) := by
  have h1 : Reachable schedS1 :=
    Reachable.step initState (SchedEvent.schedule "a" 5) schedS1
      Reachable.init (by decide)
  exact ⟨⟨h1, rfl, by decide⟩,
    extraction_single_flight.2.1 schedS1 "b" 6 schedS2 h1 rfl (by decide)⟩

/-- Witness for C2: at the concrete reachable state `schedS3` (idle, last
start at 5), a schedule call at time 9 queues the request and sets one timer
for time 10 — the remaining interval. -/
theorem extraction_throttle_witness :
    (Reachable schedS3 ∧ schedS3.running = false ∧
      9 - schedS3.lastStart < throttleSecs ∧
      stepE (SchedEvent.schedule "c" 9) schedS3 = some schedS4) ∧
    (schedS4.pending = some "c" ∧
      schedS4.timerDeadline = some (schedS3.lastStart + throttleSecs) ∧
      schedS4.startLog = schedS3.startLog) := by
  have h1 : Reachable schedS1 :=
    Reachable.step initState (SchedEvent.schedule "a" 5) schedS1
      Reachable.init (by decide)
  have h3 : Reachable schedS3 :=
    Reachable.step schedS1 (SchedEvent.complete 7) schedS3 h1 (by decide)
  exact ⟨⟨h3, rfl, by decide, by decide⟩,
    extraction_throttle.2.2.1 schedS3 "c" 9 schedS4 h3 rfl (by decide)
      (by decide)⟩

end DrTranscribe
